import Mathlib

/-!
# Span Balance Tracker — verification of `src/debugging/open-spans.py`

A shallow embedding of the Python script:

```python
opened = defaultdict(lambda: 0)
try:
    for line in fileinput.input():
        obj = json.loads(line)
        if obj['type'] == "new":
            opened[tuple(obj['span'])] += 1
        else:
            opened[tuple(obj['span'])] -= 1
except BrokenPipeError:
    pass

open = {}
for k, n in opened.items():
    if n > 0:
        open.push(k)
```

Python dicts are modelled as association lists in insertion order with
unique keys; decoded JSON values as the inductive `JValue`; the exceptions
the script can raise as the inductive `Err`.  `dict.push` does not exist,
so the final loop raises `AttributeError` the first time its guard fires.
-/

/-- A decoded JSON value (result of `json.loads`).  Numbers are modelled as
integers: no claim involves non-integral numbers.  An `obj` is the decoded
dict: a list of fields in insertion order with distinct keys. -/
inductive JValue where
  | null
  | bool (b : Bool)
  | num (n : Int)
  | str (s : String)
  | arr (elems : List JValue)
  | obj (fields : List (String × JValue))

/-- A hashable Python scalar, usable as a tuple element of a dict key.
Equality is structural, per the data model. -/
inductive Scalar where
  | null
  | bool (b : Bool)
  | num (n : Int)
  | str (s : String)
  deriving DecidableEq, Repr

/-- The exceptions the script can raise. -/
inductive Err where
  | jsonDecodeError
  | keyError
  | typeError
  | attributeError
  deriving DecidableEq, Repr

/-- A span identifier: the tuple built by `tuple(obj['span'])`. -/
abbrev Key := List Scalar

/-- The Balance Table `opened`: a Python dict from key to count, in
insertion order. -/
abbrev Table := List (Key × Int)

/-- Dict lookup with the `defaultdict` default `0`: keys not present map
to `0`. -/
def Table.get : Table → Key → Int
  | [], _ => 0
  | p :: rest, k => if p.1 = k then p.2 else Table.get rest k

/-- `opened[k] += d` on a `defaultdict(lambda: 0)`: update the entry in
place if the key is present (preserving insertion order), otherwise insert
the key at the end with value `0 + d`. -/
def Table.add : Table → Key → Int → Table
  | [], k, d => [(k, d)]
  | p :: rest, k, d =>
    if p.1 = k then (p.1, p.2 + d) :: rest else p :: Table.add rest k d

/-- The keys of the table, in insertion order. -/
def Table.keys (t : Table) : List Key := t.map (fun p => p.1)

/-- One event at the post-parsing level: the decoded `type` value and the
already-converted span key.  Claims about counting quantify over these. -/
structure Event where
  etype : JValue
  span : Key

/-- Python `obj['type'] == "new"`: `true` exactly for the JSON string
`"new"`.  Python equality between `"new"` and any non-string value is
`False`, never an error, so no type check happens here. -/
def isNewType : JValue → Bool
  | .str s => s == "new"
  | _ => false

/-- Lines 13–16 of the script, for one event: `if obj['type'] == "new"`
increment by 1, else decrement by 1. -/
def step (t : Table) (e : Event) : Table :=
  if isNewType e.etype then t.add e.span 1 else t.add e.span (-1)

/-- The input loop at the event level: fold `step` over the events starting
from the empty table (`opened = defaultdict(lambda: 0)`). -/
def processEvents (l : List Event) : Table := List.foldl step [] l

/-- Number of events for `id` whose `type` is exactly the string `"new"`. -/
def countNew (l : List Event) (id : Key) : Nat :=
  l.countP (fun e => decide (e.span = id) && isNewType e.etype)

/-- Number of events for `id` whose `type` is anything other than the
string `"new"`. -/
def countOther (l : List Event) (id : Key) : Nat :=
  l.countP (fun e => decide (e.span = id) && !isNewType e.etype)

/-- One raw input line, as `json.loads` sees it: either it decodes to a
JSON value, or it is not valid JSON (`json.loads` raises
`json.JSONDecodeError`). -/
inductive Line where
  | malformed
  | json (v : JValue)

/-- One step of the `for line in fileinput.input()` iteration: either a
line arrives, or the iteration raises `BrokenPipeError`. -/
inductive InTok where
  | line (l : Line)
  | brokenPipe

/-- Python `obj[f]` for a string subscript `f`: a `KeyError` when the dict
lacks the key, a `TypeError` when `obj` is not a dict at all. -/
def getItem (v : JValue) (f : String) : Except Err JValue :=
  match v with
  | .obj fields =>
    match fields.find? (fun p => p.1 == f) with
    | some p => .ok p.2
    | none => .error .keyError
  | _ => .error .typeError

/-- A tuple element must be hashable to be part of a dict key; lists and
dicts are unhashable, so using them inside a key raises `TypeError`. -/
def toHashable : JValue → Option Scalar
  | .null => some .null
  | .bool b => some (.bool b)
  | .num n => some (.num n)
  | .str s => some (.str s)
  | .arr _ => none
  | .obj _ => none

/-- Hashable images of a list of tuple elements, or the `TypeError` raised
at `opened[...]` when some element is unhashable. -/
def keyOfElems : List JValue → Except Err Key
  | [] => .ok []
  | v :: rest =>
    match toHashable v with
    | none => .error .typeError
    | some s =>
      match keyOfElems rest with
      | .error e => .error e
      | .ok ks => .ok (s :: ks)

/-- `tuple(obj['span'])` followed by its use as a dict key.  Iterating a
JSON array yields its elements; iterating a string yields its one-character
substrings; iterating a dict yields its keys; `null`, booleans and numbers
are not iterable, so `tuple()` raises `TypeError` on them. -/
def toKey : JValue → Except Err Key
  | .arr l => keyOfElems l
  | .str s => .ok (s.toList.map (fun c => Scalar.str (String.mk [c])))
  | .obj fields => .ok (fields.map (fun p => Scalar.str p.1))
  | _ => .error .typeError

/-- Lines 12–16 of the script for one line: decode, read `obj['type']`,
compare with `"new"`, read `obj['span']`, convert it to a key and update
`opened`; any exception aborts the step.  Evaluation order matches the
source: `type` is read before `span`. -/
def lineStep (t : Table) (l : Line) : Except Err Table :=
  match l with
  | .malformed => .error .jsonDecodeError
  | .json v =>
    match getItem v "type" with
    | .error e => .error e
    | .ok ty =>
      if isNewType ty then
        match getItem v "span" with
        | .error e => .error e
        | .ok sp =>
          match toKey sp with
          | .error e => .error e
          | .ok k => .ok (t.add k 1)
      else
        match getItem v "span" with
        | .error e => .error e
        | .ok sp =>
          match toKey sp with
          | .error e => .error e
          | .ok k => .ok (t.add k (-1))

/-- The `try`/`except` input loop (lines 10–18).  `except BrokenPipeError:
pass` catches exactly a `BrokenPipeError` raised by the iteration and ends
the loop as if the input were exhausted; every other exception propagates
out of the loop uncaught. -/
def runInput : List InTok → Table → Except Err Table
  | [], t => .ok t
  | InTok.brokenPipe :: _, t => .ok t
  | InTok.line l :: rest, t =>
    match lineStep t l with
    | .error e => .error e
    | .ok next => runInput rest next

/-- Lines 20–24: `open = {}` then `for k, n in opened.items(): if n > 0:
open.push(k)`.  A dict has no `push` method, so the first entry with a
strictly positive count raises `AttributeError`; when no guard fires the
loop completes and `open` is still the empty dict — nothing was ever
emitted.  The returned list is the contents of `open` on success. -/
def emit : Table → Except Err (List Key)
  | [] => .ok []
  | p :: rest => if p.2 > 0 then .error .attributeError else emit rest

/-- The whole script: the guarded input loop over `opened = {}` default
dict, then the emission loop. -/
def runProgram (input : List InTok) : Except Err (List Key) :=
  match runInput input [] with
  | .error e => .error e
  | .ok t => emit t

/-- The Open Set: the keys selected by the emission loop's guard `n > 0` —
the subset of Balance Table keys with strictly positive value, in table
order. -/
def openSet (t : Table) : List Key :=
  (t.filter (fun p => p.2 > 0)).map (fun p => p.1)

/-! ## Table lemmas -/

theorem Table.get_add (t : Table) (k : Key) (d : Int) (id : Key) :
    (t.add k d).get id = t.get id + if id = k then d else 0 := by
  induction t with
  | nil =>
    by_cases h : k = id
    · simp [Table.add, Table.get, h]
    · have h' : ¬ id = k := fun hh => h hh.symm
      simp [Table.add, Table.get, h, h']
  | cons p rest ih =>
    by_cases hpk : p.1 = k
    · by_cases hpi : p.1 = id
      · have hik : id = k := by rw [← hpi, hpk]
        simp [Table.add, Table.get, hpk, hpi, hik]
      · have hik : ¬ id = k := fun hh => hpi (by rw [hpk, ← hh])
        have hki : ¬ k = id := fun hh => hik hh.symm
        simp [Table.add, Table.get, hpk, hpi, hik, hki]
    · by_cases hpi : p.1 = id
      · have hik : ¬ id = k := fun hh => hpk (by rw [hpi, hh])
        simp [Table.add, Table.get, hpk, hpi, hik]
      · simp [Table.add, Table.get, hpk, hpi, ih]

theorem Table.mem_keys_add_iff (t : Table) (k : Key) (d : Int) (id : Key) :
    id ∈ Table.keys (t.add k d) ↔ id ∈ Table.keys t ∨ id = k := by
  induction t with
  | nil => simp [Table.add, Table.keys]
  | cons p rest ih =>
    by_cases hpk : p.1 = k
    · subst hpk
      have hadd : Table.add (p :: rest) p.1 d = (p.1, p.2 + d) :: rest := by
        simp [Table.add]
      rw [hadd]
      simp only [Table.keys, List.map_cons, List.mem_cons]
      tauto
    · simp only [Table.add, if_neg hpk, Table.keys, List.map_cons, List.mem_cons]
      simp only [Table.keys] at ih
      rw [ih]
      tauto

theorem Table.mem_keys_add (t : Table) (k : Key) (d : Int) (id : Key)
    (h : id ∈ Table.keys t) : id ∈ Table.keys (t.add k d) :=
  (Table.mem_keys_add_iff t k d id).mpr (Or.inl h)

theorem Table.nodup_keys_add (t : Table) (k : Key) (d : Int)
    (h : (Table.keys t).Nodup) : (Table.keys (t.add k d)).Nodup := by
  induction t with
  | nil => simp [Table.add, Table.keys]
  | cons p rest ih =>
    simp only [Table.keys, List.map_cons, List.nodup_cons] at h
    by_cases hpk : p.1 = k
    · simp only [Table.add, if_pos hpk, Table.keys, List.map_cons, List.nodup_cons]
      exact h
    · simp only [Table.add, if_neg hpk, Table.keys, List.map_cons, List.nodup_cons]
      refine ⟨?_, by simpa [Table.keys] using ih h.2⟩
      intro hc
      rcases (Table.mem_keys_add_iff rest k d p.1).mp (by simpa [Table.keys] using hc)
        with hc' | hc'
      · exact h.1 (by simpa [Table.keys] using hc')
      · exact hpk hc'

theorem step_get (t : Table) (e : Event) (id : Key) :
    (step t e).get id =
      t.get id +
        if e.span = id then (if isNewType e.etype then 1 else -1) else 0 := by
  unfold step
  by_cases h : isNewType e.etype <;>
    simp [h, Table.get_add, eq_comm]

theorem step_mem_keys (t : Table) (e : Event) (id : Key)
    (h : id ∈ Table.keys t) : id ∈ Table.keys (step t e) := by
  unfold step
  split <;> exact Table.mem_keys_add _ _ _ _ h

theorem step_nodup_keys (t : Table) (e : Event)
    (h : (Table.keys t).Nodup) : (Table.keys (step t e)).Nodup := by
  unfold step
  split <;> exact Table.nodup_keys_add _ _ _ h

theorem foldl_step_get (l : List Event) :
    ∀ (t : Table) (id : Key),
      (List.foldl step t l).get id =
        t.get id + (countNew l id : Int) - (countOther l id : Int) := by
  induction l with
  | nil => intro t id; simp [countNew, countOther]
  | cons e l ih =>
    intro t id
    simp only [List.foldl_cons]
    rw [ih, step_get]
    simp only [countNew, countOther, List.countP_cons]
    by_cases hsp : e.span = id <;>
      by_cases hty : isNewType e.etype <;>
      simp [hsp, hty] <;> omega

theorem foldl_step_mem_keys (l : List Event) :
    ∀ (t : Table) (id : Key),
      id ∈ Table.keys t → id ∈ Table.keys (List.foldl step t l) := by
  induction l with
  | nil => intro t id h; simpa using h
  | cons e l ih =>
    intro t id h
    exact ih _ _ (step_mem_keys _ _ _ h)

theorem foldl_step_nodup_keys (l : List Event) :
    ∀ t : Table, (Table.keys t).Nodup → (Table.keys (List.foldl step t l)).Nodup := by
  induction l with
  | nil => intro t h; simpa using h
  | cons e l ih =>
    intro t h
    exact ih _ (step_nodup_keys _ _ h)

theorem processEvents_nodup_keys (l : List Event) :
    (Table.keys (processEvents l)).Nodup :=
  foldl_step_nodup_keys l [] (by simp [Table.keys])

theorem processEvents_get (l : List Event) (id : Key) :
    (processEvents l).get id = (countNew l id : Int) - (countOther l id : Int) := by
  have h := foldl_step_get l [] id
  simpa [processEvents, Table.get] using h

theorem openSet_subset_keys (t : Table) (id : Key)
    (h : id ∈ openSet t) : id ∈ Table.keys t := by
  simp only [openSet, List.mem_map, List.mem_filter] at h
  obtain ⟨p, ⟨hp, _⟩, rfl⟩ := h
  exact List.mem_map_of_mem _ hp

theorem openSet_cons (p : Key × Int) (rest : Table) :
    openSet (p :: rest) = if 0 < p.2 then p.1 :: openSet rest else openSet rest := by
  by_cases h : 0 < p.2 <;> simp [openSet, List.filter_cons, h]

theorem openSet_mem_iff (t : Table) (h : (Table.keys t).Nodup) (id : Key) :
    id ∈ openSet t ↔ 0 < t.get id := by
  induction t with
  | nil => simp [openSet, Table.get]
  | cons p rest ih =>
    simp only [Table.keys, List.map_cons, List.nodup_cons] at h
    have hnotin : p.1 ∉ Table.keys rest := by simpa [Table.keys] using h.1
    have hrest : (Table.keys rest).Nodup := by simpa [Table.keys] using h.2
    rw [openSet_cons]
    by_cases hpi : p.1 = id
    · subst hpi
      by_cases hpos : 0 < p.2
      · simp [hpos, Table.get]
      · have hno : p.1 ∉ openSet rest := fun hc => hnotin (openSet_subset_keys _ _ hc)
        simp [hpos, Table.get, hno]
    · have hne : id ≠ p.1 := fun hh => hpi hh.symm
      by_cases hpos : 0 < p.2 <;>
        simp [Table.get, hpi, hne, hpos, ih hrest]

/-! ## Emission and input-loop lemmas -/

theorem emit_ok_of_nonpos (t : Table) (h : ∀ p ∈ t, p.2 ≤ 0) :
    emit t = .ok [] := by
  induction t with
  | nil => rfl
  | cons p rest ih =>
    have hp : ¬ p.2 > 0 := not_lt.mpr (h p (List.mem_cons_self _ _))
    simp only [emit, if_neg hp]
    exact ih (fun q hq => h q (List.mem_cons_of_mem _ hq))

theorem emit_error_of_pos (t : Table) (h : ∃ p ∈ t, 0 < p.2) :
    emit t = .error .attributeError := by
  induction t with
  | nil => simp at h
  | cons p rest ih =>
    by_cases hp : p.2 > 0
    · simp [emit, hp]
    · obtain ⟨q, hq, hqpos⟩ := h
      rcases List.mem_cons.mp hq with rfl | hq'
      · exact absurd hqpos hp
      · simp only [emit, if_neg hp]
        exact ih ⟨q, hq', hqpos⟩

theorem emit_ok_nil (t : Table) (out : List Key) (h : emit t = .ok out) :
    out = [] := by
  induction t with
  | nil =>
    simp only [emit] at h
    cases h
    rfl
  | cons p rest ih =>
    by_cases hp : p.2 > 0
    · simp [emit, hp] at h
    · simp only [emit, if_neg hp] at h
      exact ih h

theorem runInput_append_lines (pre : List Line) (rest : List InTok) :
    ∀ t0 : Table,
      runInput (pre.map InTok.line ++ rest) t0 =
        match runInput (pre.map InTok.line) t0 with
        | .ok t => runInput rest t
        | .error e => .error e := by
  induction pre with
  | nil => intro t0; rfl
  | cons l pre ih =>
    intro t0
    simp only [List.map_cons, List.cons_append, runInput]
    cases lineStep t0 l with
    | error e => rfl
    | ok t1 => exact ih t1

theorem runProgram_error_at (pre : List Line) (l : Line) (suf : List Line)
    (t : Table) (e : Err)
    (hpre : runInput (pre.map InTok.line) [] = .ok t)
    (hl : lineStep t l = .error e) :
    runProgram ((pre ++ l :: suf).map InTok.line) = .error e := by
  unfold runProgram
  rw [List.map_append, List.map_cons, runInput_append_lines, hpre]
  simp [runInput, hl]

theorem getItem_obj_error (fields : List (String × JValue)) (f : String) (e : Err)
    (h : getItem (JValue.obj fields) f = .error e) : e = Err.keyError := by
  simp only [getItem] at h
  cases hf : fields.find? (fun p => p.1 == f) <;> rw [hf] at h <;> simp_all

theorem isNewType_eq_false (v : JValue) (h : v ≠ JValue.str "new") :
    isNewType v = false := by
  cases v with
  | str s =>
    have hs : s ≠ "new" := fun hh => h (by rw [hh])
    simp [isNewType, hs]
  | null => rfl
  | bool b => rfl
  | num n => rfl
  | arr l => rfl
  | obj l => rfl

/-! ## Sample data shared by witnesses -/

/-- The key `("a",)`. -/
def keyA : Key := [Scalar.str "a"]

/-- An opening event for `keyA`. -/
def evNewA : Event := ⟨JValue.str "new", keyA⟩

/-- A closing event for `keyA`. -/
def evCloseA : Event := ⟨JValue.str "close", keyA⟩

/-! ## Claims -/

/-- C1: for every event sequence and every span identifier `id` that appears
in at least one event, after processing any prefix of the sequence the
Balance Table entry for `id` equals the number of `"new"` events for `id`
seen so far minus the number of other events for `id` seen so far, and an
identifier that has an entry after the prefix still has one after the whole
sequence (no entry is ever removed; entries may go negative). -/
theorem C1_balance_invariant (l pre : List Event) (id : Key)
    (hpre : ∃ suf, l = pre ++ suf) (happ : ∃ e ∈ l, e.span = id) :
    (processEvents pre).get id
        = (countNew pre id : Int) - (countOther pre id : Int)
      ∧ (id ∈ Table.keys (processEvents pre)
          → id ∈ Table.keys (processEvents l)) := by
  obtain ⟨suf, rfl⟩ := hpre
  refine ⟨processEvents_get pre id, fun hmem => ?_⟩
  unfold processEvents at hmem ⊢
  rw [List.foldl_append]
  exact foldl_step_mem_keys suf _ id hmem

/-- Witness for C1 at the sequence `[new a, close a]` with prefix `[new a]`. -/
theorem C1_balance_invariant_witness :
    (processEvents [evNewA]).get keyA
        = (countNew [evNewA] keyA : Int) - (countOther [evNewA] keyA : Int)
      ∧ (keyA ∈ Table.keys (processEvents [evNewA])
          → keyA ∈ Table.keys (processEvents [evNewA, evCloseA])) :=
  C1_balance_invariant [evNewA, evCloseA] [evNewA] keyA
    ⟨[evCloseA], rfl⟩ ⟨evNewA, by simp, rfl⟩

/-- C2: a span identifier is selected by the emission guard (the Open Set)
if and only if its final Balance Table entry is strictly positive. -/
theorem C2_open_set_iff (events : List Event) (id : Key) :
    id ∈ openSet (processEvents events) ↔ 0 < (processEvents events).get id :=
  openSet_mem_iff _ (processEvents_nodup_keys events) id

/-- C3 is refuted at the empty input: the emission loop body never runs, so
the emission step completes successfully (with no output). -/
theorem C3_counterexample : runProgram [] = .ok [] ∧ emit [] = .ok [] :=
  ⟨rfl, rfl⟩

/-- C3 (amended): the emission step fails with `AttributeError` whenever the
final Balance Table has at least one strictly positive entry (`dict` has no
`push` method), and whenever the emission step does complete the output
collection is still empty — the tool never emits any open span. -/
theorem C3_emission_broken (t : Table) :
    ((∃ p ∈ t, 0 < p.2) → emit t = .error Err.attributeError)
      ∧ (∀ out, emit t = .ok out → out = []) :=
  ⟨fun h => emit_error_of_pos t h, fun out h => emit_ok_nil t out h⟩

/-- Witness for C3 (amended): a table with one positive entry makes the
emission step raise, and an empty table completes with empty output. -/
theorem C3_emission_broken_witness :
    emit [(keyA, 1)] = Except.error Err.attributeError ∧ ([] : List Key) = [] :=
  ⟨(C3_emission_broken [(keyA, 1)]).1 ⟨(keyA, 1), by simp, by decide⟩,
   (C3_emission_broken []).2 [] rfl⟩

/-- C4 is refuted: a broken pipe during the input phase is caught, but the
program then runs the defective emission loop, and with one open span on
the table it terminates with an uncaught `AttributeError`, not as a clean
success. -/
theorem C4_counterexample :
    runProgram [InTok.line (Line.json (JValue.obj
        [("type", JValue.str "new"), ("span", JValue.arr [JValue.str "a"])])),
      InTok.brokenPipe]
      = .error Err.attributeError := rfl

/-- C4 (amended): a `BrokenPipeError` raised while reading input is caught
and suppressed — the rest of the input is ignored and the error does not
propagate — after which the program runs the emission loop on the table
built so far; it therefore exits cleanly exactly when no balance is
strictly positive.  The handler covers only the input-reading phase; the
emission phase performs no pipe write in the source. -/
theorem C4_broken_pipe_suppressed (pre : List Line) (suf : List InTok) (t : Table)
    (hpre : runInput (pre.map InTok.line) [] = .ok t) :
    runProgram (pre.map InTok.line ++ InTok.brokenPipe :: suf) = emit t
      ∧ ((∀ p ∈ t, p.2 ≤ 0) →
          runProgram (pre.map InTok.line ++ InTok.brokenPipe :: suf) = .ok []) := by
  have h1 : runInput (pre.map InTok.line ++ InTok.brokenPipe :: suf) [] = .ok t := by
    rw [runInput_append_lines, hpre]
    rfl
  constructor
  · unfold runProgram
    rw [h1]
  · intro hnp
    unfold runProgram
    rw [h1]
    exact emit_ok_of_nonpos t hnp

/-- Witness for C4 (amended) at the input consisting of a lone broken pipe. -/
theorem C4_broken_pipe_suppressed_witness :
    runProgram [InTok.brokenPipe] = emit []
      ∧ ((∀ p ∈ ([] : Table), p.2 ≤ 0) → runProgram [InTok.brokenPipe] = .ok []) :=
  C4_broken_pipe_suppressed [] [] [] rfl

/-- C5: an input whose lines process cleanly up to a line that is not valid
JSON, or whose decoded object lacks the `type` or `span` key, aborts at
that line with a fatal decode or key error: the error is not caught, the
line is not skipped, and the result is distinguishable from success. -/
theorem C5_malformed_fatal (pre : List Line) (l : Line) (suf : List Line) (t : Table)
    (hpre : runInput (pre.map InTok.line) [] = .ok t)
    (hbad : l = Line.malformed
      ∨ ∃ fields, l = Line.json (JValue.obj fields)
          ∧ (getItem (JValue.obj fields) "type" = .error Err.keyError
             ∨ getItem (JValue.obj fields) "span" = .error Err.keyError)) :
    ∃ e, (e = Err.jsonDecodeError ∨ e = Err.keyError)
      ∧ runProgram ((pre ++ l :: suf).map InTok.line) = .error e := by
  rcases hbad with rfl | ⟨fields, rfl, hk⟩
  · exact ⟨Err.jsonDecodeError, Or.inl rfl,
      runProgram_error_at pre _ suf t _ hpre rfl⟩
  · refine ⟨Err.keyError, Or.inr rfl,
      runProgram_error_at pre _ suf t _ hpre ?_⟩
    rcases hk with hk | hk
    · simp [lineStep, hk]
    · cases hty : getItem (JValue.obj fields) "type" with
      | error e' =>
        have he' : e' = Err.keyError := getItem_obj_error fields "type" e' hty
        subst he'
        simp [lineStep, hty]
      | ok ty =>
        by_cases hn : isNewType ty <;> simp [lineStep, hty, hn, hk]

/-- Witness for C5 at the one-line input whose line is not valid JSON. -/
theorem C5_malformed_fatal_witness :
    ∃ e, (e = Err.jsonDecodeError ∨ e = Err.keyError)
      ∧ runProgram [InTok.line Line.malformed] = .error e :=
  C5_malformed_fatal [] Line.malformed [] [] rfl (Or.inl rfl)

/-- C6: permuting the events of a sequence — in particular, permuting
events of different identifiers, or events of the same identifier —
never changes any identifier's final balance: counting is commutative
and associative. -/
theorem C6_perm_final_balance (l₁ l₂ : List Event) (h : l₁.Perm l₂) (id : Key) :
    (processEvents l₁).get id = (processEvents l₂).get id := by
  rw [processEvents_get, processEvents_get]
  unfold countNew countOther
  rw [h.countP_eq, h.countP_eq]

/-- Witness for C6: swapping an open and a close of the same identifier
leaves its final balance unchanged. -/
theorem C6_perm_final_balance_witness :
    (processEvents [evNewA, evCloseA]).get keyA
      = (processEvents [evCloseA, evNewA]).get keyA :=
  C6_perm_final_balance _ _ (List.Perm.swap evCloseA evNewA []) keyA

/-- C7: two `"new"` events for the same identifier and no close give that
identifier a final balance of 2, and the identifier appears exactly once in
the Open Set despite the count of 2. -/
theorem C7_double_open (k : Key) :
    (processEvents [⟨JValue.str "new", k⟩, ⟨JValue.str "new", k⟩]).get k = 2
      ∧ (openSet (processEvents
          [⟨JValue.str "new", k⟩, ⟨JValue.str "new", k⟩])).count k = 1 := by
  have hpe : processEvents [⟨JValue.str "new", k⟩, ⟨JValue.str "new", k⟩]
      = [(k, 2)] := by
    show step (step [] ⟨JValue.str "new", k⟩) ⟨JValue.str "new", k⟩ = [(k, 2)]
    norm_num [step, isNewType, Table.add]
  rw [hpe]
  constructor
  · simp [Table.get]
  · simp [openSet, List.filter_cons, List.count_cons]

/-- C8: an event whose decoded `type` is any JSON value other than the
exact string `"new"` — another string, a number, `null`, a boolean, an
array or an object — decrements the balance of its span identifier; the
comparison raises no error and performs no type check. -/
theorem C8_non_new_decrements (t : Table) (ty sp : JValue) (k : Key)
    (hty : ty ≠ JValue.str "new") (hsp : toKey sp = .ok k) :
    lineStep t (Line.json (JValue.obj [("type", ty), ("span", sp)]))
        = .ok (t.add k (-1))
      ∧ (t.add k (-1)).get k = t.get k - 1 := by
  constructor
  · have hnew : isNewType ty = false := isNewType_eq_false ty hty
    simp [lineStep, getItem, hnew, hsp]
  · rw [Table.get_add]
    simp
    omega

/-- Witness for C8 at a numeric `type` value. -/
theorem C8_non_new_decrements_witness :
    lineStep [] (Line.json (JValue.obj
        [("type", JValue.num 7), ("span", JValue.arr [])]))
        = .ok (Table.add [] [] (-1))
      ∧ (Table.add [] [] (-1)).get [] = Table.get [] [] - 1 :=
  C8_non_new_decrements [] (JValue.num 7) (JValue.arr []) [] (nofun) rfl

/-- C9: `tuple(obj['span'])` turns a JSON string span into the tuple of its
characters, so the distinct span values `"ab"` and `["a","b"]` share one
key and update the same Balance Table entry: two `"new"` events with those
two spans leave a single entry with balance 2. -/
theorem C9_span_tuple_aliasing :
    toKey (JValue.str "ab") = toKey (JValue.arr [JValue.str "a", JValue.str "b"])
      ∧ JValue.str "ab" ≠ JValue.arr [JValue.str "a", JValue.str "b"]
      ∧ runInput
          [InTok.line (Line.json (JValue.obj
            [("type", JValue.str "new"), ("span", JValue.str "ab")])),
           InTok.line (Line.json (JValue.obj
            [("type", JValue.str "new"),
             ("span", JValue.arr [JValue.str "a", JValue.str "b"])]))] []
          = .ok [([Scalar.str "a", Scalar.str "b"], 2)] :=
  ⟨rfl, nofun, rfl⟩

/-- C10: when the input phase completes with a table that has no strictly
positive entry, the emission loop's guard never fires: the defective
`push` call is unreachable and the program ends successfully with no
output. -/
theorem C10_no_positive_clean (input : List InTok) (t : Table)
    (ht : runInput input [] = .ok t) (hnp : ∀ p ∈ t, p.2 ≤ 0) :
    runProgram input = .ok [] := by
  unfold runProgram
  rw [ht]
  exact emit_ok_of_nonpos t hnp

/-- Witness for C10 at a single unmatched close (final balance −1). -/
theorem C10_no_positive_clean_witness :
    runProgram [InTok.line (Line.json (JValue.obj
      [("type", JValue.str "close"), ("span", JValue.arr [JValue.str "a"])]))]
      = .ok [] :=
  C10_no_positive_clean _ [([Scalar.str "a"], -1)] rfl (by decide)
